import Mathlib

/-
Verification development for the genutil child-resolution algorithm
(src/genutil/common.go).  The schema tree, the compression policy model and
the child resolver FindAllChildren are embedded shallowly; the helper
predicates that the source imports from the util package of the same
repository (Children, IsConfig, IsChoiceOrCase, IsConfigState,
FindFirstNonChoiceOrCase) are not part of the provided sources and are
modelled from the specification document, as marked on each definition.
-/

set_option maxHeartbeats 1000000

namespace Genutil

/-- Kind of a schema node; leafref stands for a leaf whose YANG type is a
leafref (Type.Kind == yang.Yleafref in the source), the remaining kinds
mirror the directory and wrapper node kinds of the schema tree. -/
inductive NodeKind where
  | leaf
  | leafref
  | container
  | list
  | choice
  | case_
  deriving DecidableEq

/-- Tri-state config statement of a node, mirroring yang.TriState:
unset means the value is inherited from the parent. -/
inductive TriState where
  | unset
  | tTrue
  | tFalse
  deriving DecidableEq

/-- A schema tree node (yang.Entry): a name, a kind, a config statement, the
ordered declared children (Dir, in declaration order as the spec fixes), and
the slash-separated path used only in error messages. -/
structure SchemaNode where
  name : String
  kind : NodeKind
  config : TriState
  children : List SchemaNode
  path : String

/-- Modelled from the spec: util.Children returns the declared children of a
node in declaration order. -/
def children (e : SchemaNode) : List SchemaNode :=
  e.children

/-- Modelled from the spec: util.IsChoiceOrCase holds for the wrapper kinds
choice and case. -/
def isChoiceOrCase (e : SchemaNode) : Bool :=
  match e.kind with
  | .choice | .case_ => true
  | _ => false

/-- A node is a directory (e.IsDir in goyang) when it is a container, list,
choice or case node. -/
def isDir (e : SchemaNode) : Bool :=
  match e.kind with
  | .container | .list | .choice | .case_ => true
  | _ => false

/-- Modelled from the spec: util.IsConfigState holds for a directory node
literally named config or state. -/
def isConfigState (e : SchemaNode) : Bool :=
  isDir e && (e.name == "config" || e.name == "state")

/-- Modelled from the spec: util.IsConfig resolves the effective config
visibility of a node given the effective visibility pc of its parent, as per
RFC6020 inheritance; the root is implicitly writable, so pc is true there. -/
def effConfig (pc : Bool) (e : SchemaNode) : Bool :=
  match e.config with
  | .tTrue => true
  | .tFalse => false
  | .unset => pc

theorem sizeOf_children_lt (e : SchemaNode) : sizeOf e.children < sizeOf e := by
  cases e with
  | mk n k c ch p => simp [SchemaNode.mk.sizeOf_spec]; omega

/-- Modelled from the spec: the recursion of util.FindFirstNonChoiceOrCase
over a list of nodes, collecting for each branch the first descendants that
are not themselves choice or case nodes, in declaration order. -/
def flattenList : List SchemaNode → List SchemaNode
  | [] => []
  | c :: rest =>
    (if isChoiceOrCase c then flattenList c.children else [c]) ++ flattenList rest
termination_by l => sizeOf l
decreasing_by
  all_goals simp only [List.cons.sizeOf_spec]
  · have h := sizeOf_children_lt c
    omega
  · omega

/-- Modelled from the spec: util.FindFirstNonChoiceOrCase finds the first
descendants of e that are neither choice nor case nodes. -/
def FindFirstNonChoiceOrCase (e : SchemaNode) : List SchemaNode :=
  flattenList (children e)

/-- addNewChild adds key k with value v to the mapping m if k is not yet
present; otherwise the mapping is unchanged and a duplicate error naming the
path of v is appended to errs. -/
def addNewChild (m : List (String × SchemaNode)) (k : String) (v : SchemaNode)
    (errs : List String) : List (String × SchemaNode) × List String :=
  match m.find? (fun p => p.1 == k) with
  | some _ => (m, errs ++ [v.path ++ " was duplicate"])
  | none => (m ++ [(k, v)], errs)

/-- addNonChoiceChildren adds the first non-choice non-case descendants of e
to the mapping m via addNewChild. -/
def addNonChoiceChildren (m : List (String × SchemaNode)) (e : SchemaNode)
    (errs : List String) : List (String × SchemaNode) × List String :=
  (FindFirstNonChoiceOrCase e).foldl
    (fun acc n => addNewChild acc.1 n.name n acc.2) (m, errs)

/-- addNonChoiceChildrenDuplist behaves as addNonChoiceChildren except that a
node whose name hits the whitelist duplist is silently skipped. -/
def addNonChoiceChildrenDuplist (m : List (String × SchemaNode)) (e : SchemaNode)
    (duplist : List String) (errs : List String) :
    List (String × SchemaNode) × List String :=
  (FindFirstNonChoiceOrCase e).foldl
    (fun acc n =>
      if duplist.contains n.name then acc
      else addNewChild acc.1 n.name n acc.2) (m, errs)

/-- findAllChildrenWithoutCompression finds the children of e when not
compressing paths: choice and case children are flattened, every other child
is added directly; read-only children are skipped when excludeState is set. -/
def findAllChildrenWithoutCompression (pc : Bool) (e : SchemaNode)
    (excludeState : Bool) : List (String × SchemaNode) × List String :=
  (children e).foldl
    (fun acc child =>
      if excludeState && !effConfig (effConfig pc e) child then acc
      else if isChoiceOrCase child then addNonChoiceChildren acc.1 child acc.2
      else addNewChild acc.1 child.name child acc.2)
    ([], [])

/-- CompressBehaviour specifies how the set of direct children of any entry
should be determined. -/
inductive CompressBehaviour where
  | Uncompressed
  | UncompressedExcludeDerivedState
  | PreferIntendedConfig
  | PreferOperationalState
  | ExcludeDerivedState
  deriving DecidableEq

/-- CompressEnabled is a helper to query whether compression is on. -/
def CompressBehaviour.CompressEnabled (c : CompressBehaviour) : Bool :=
  match c with
  | .Uncompressed | .UncompressedExcludeDerivedState => false
  | _ => true

/-- StateExcluded is a helper to query whether derived state is excluded. -/
def CompressBehaviour.StateExcluded (c : CompressBehaviour) : Bool :=
  match c with
  | .ExcludeDerivedState | .UncompressedExcludeDerivedState => true
  | _ => false

/-- TranslateToCompressBehaviour translates the pair (compressPaths,
excludeState) into a CompressBehaviour option. -/
def TranslateToCompressBehaviour (compressPaths excludeState : Bool) :
    CompressBehaviour :=
  if compressPaths && excludeState then .ExcludeDerivedState
  else if compressPaths then .PreferIntendedConfig
  else if excludeState then .UncompressedExcludeDerivedState
  else .Uncompressed

/-- State threaded through the compressed-path loop of FindAllChildren: the
whitelist of names seen under the prioritized data container, the mapping of
direct children accumulated so far and the accumulated errors. -/
structure ResolveState where
  prioNames : List String
  directChildren : List (String × SchemaNode)
  errs : List String

/-- Dir lookup e.Dir[n] over the ordered children. -/
def lookupChild (e : SchemaNode) (n : String) : Option SchemaNode :=
  e.children.find? (fun c => c.name == n)

/-- The mapping part of one grandchild step of the config/state recursion of
FindAllChildren: under the deprioritized container a duplicate against the
whitelist is skipped silently, under the prioritized one every flattened
grandchild is added via the duplicate guard in strict mode. -/
def processConfigStateGrandchildAdd (csName deprioData : String)
    (st : ResolveState) (g : SchemaNode) : ResolveState :=
  if csName == deprioData then
    if isChoiceOrCase g then
      { st with
        directChildren := (addNonChoiceChildrenDuplist st.directChildren g st.prioNames st.errs).1,
        errs := (addNonChoiceChildrenDuplist st.directChildren g st.prioNames st.errs).2 }
    else if st.prioNames.contains g.name then st
    else
      { st with
        directChildren := (addNewChild st.directChildren g.name g st.errs).1,
        errs := (addNewChild st.directChildren g.name g st.errs).2 }
  else
    if isChoiceOrCase g then
      { st with
        directChildren := (addNonChoiceChildren st.directChildren g st.errs).1,
        errs := (addNonChoiceChildren st.directChildren g st.errs).2 }
    else
      { st with
        directChildren := (addNewChild st.directChildren g.name g st.errs).1,
        errs := (addNewChild st.directChildren g.name g st.errs).2 }

/-- The whitelist part of one grandchild step: when csName is the prioritized
container name, the flattened names of the grandchild are recorded. -/
def processConfigStateGrandchildWhitelist (csName prioData : String)
    (st : ResolveState) (g : SchemaNode) : ResolveState :=
  if csName == prioData then
    if isChoiceOrCase g then
      { st with prioNames := st.prioNames ++ (FindFirstNonChoiceOrCase g).map (fun n => n.name) }
    else
      { st with prioNames := st.prioNames ++ [g.name] }
  else st

/-- One grandchild step of the config/state recursion of FindAllChildren:
csName is the name of the config or state container being recursed into,
g the grandchild under it. -/
def processConfigStateGrandchild (csName prioData deprioData : String)
    (st : ResolveState) (g : SchemaNode) : ResolveState :=
  processConfigStateGrandchildWhitelist csName prioData
    (processConfigStateGrandchildAdd csName deprioData st g) g

/-- The surrounding-container test of rule 2 of FindAllChildren: the single
list grandchild when the directory c has exactly one child which is a list. -/
def singletonListChild (c : SchemaNode) : Option SchemaNode :=
  match children c with
  | [g] => if g.kind = NodeKind.list then some g else none
  | _ => none

/-- The directory fallthrough of the compressed path: flatten a choice or
case child, otherwise map the container directly as a child. -/
def processDirChild (st : ResolveState) (c : SchemaNode) : ResolveState :=
  if isChoiceOrCase c then
    { st with
      directChildren := (addNonChoiceChildren st.directChildren c st.errs).1,
      errs := (addNonChoiceChildren st.directChildren c st.errs).2 }
  else
    { st with
      directChildren := (addNewChild st.directChildren c.name c st.errs).1,
      errs := (addNewChild st.directChildren c.name c st.errs).2 }

/-- The body of one iteration of the compressed-path loop of FindAllChildren,
applied to a child node c of e that the scheduled name resolved to. -/
def processChildBody (pc : Bool) (e : SchemaNode) (excludeState : Bool)
    (prioData deprioData : String) (st : ResolveState) (c : SchemaNode) :
    ResolveState :=
  if excludeState && !effConfig (effConfig pc e) c then st
  else if isConfigState c then
    (children c).foldl (processConfigStateGrandchild c.name prioData deprioData) st
  else if isDir c then
    match singletonListChild c with
    | some g =>
      if !effConfig (effConfig (effConfig pc e) c) g && excludeState then st
      else
        { st with
          directChildren := (addNewChild st.directChildren g.name g st.errs).1,
          errs := (addNewChild st.directChildren g.name g st.errs).2 }
    | none => processDirChild st c
  else
    if e.kind = NodeKind.list ∧ c.kind = NodeKind.leafref then st
    else
      { st with
        directChildren := (addNewChild st.directChildren c.name c st.errs).1,
        errs := (addNewChild st.directChildren c.name c st.errs).2 }

/-- One iteration of the compressed-path loop of FindAllChildren over the
scheduled child name currChild of node e. -/
def processChild (pc : Bool) (e : SchemaNode) (excludeState : Bool)
    (prioData deprioData : String) (st : ResolveState) (currChild : String) :
    ResolveState :=
  match lookupChild e currChild with
  | none => st
  | some c => processChildBody pc e excludeState prioData deprioData st c

/-- The ordered list of child names to process in the compressed path: the
prioritized data container first when e is a container or list that has one,
then every other declared child in declaration order. -/
def orderedChildNames (e : SchemaNode) (prioData : String) : List String :=
  (if (e.kind = NodeKind.container ∨ e.kind = NodeKind.list) ∧
      (lookupChild e prioData).isSome
   then [prioData] else [])
  ++ (children e).filterMap
      (fun c => if c.name = prioData then none else some c.name)

/-- The compressed path of FindAllChildren, after the prioritized and
deprioritized data container names have been fixed. -/
def findAllChildrenCompressed (pc : Bool) (e : SchemaNode) (excludeState : Bool)
    (prioData deprioData : String) : List (String × SchemaNode) × List String :=
  let fin := (orderedChildNames e prioData).foldl
    (processChild pc e excludeState prioData deprioData)
    ⟨[], [], []⟩
  (fin.directChildren, fin.errs)

/-- FindAllChildren finds the data tree elements that are children of entry e
under the compress behaviour compBehaviour; pc is the effective config
visibility of the parent of e (true when e is the root). -/
def FindAllChildren (pc : Bool) (e : SchemaNode)
    (compBehaviour : CompressBehaviour) :
    List (String × SchemaNode) × List String :=
  let excludeState : Bool :=
    decide (compBehaviour = CompressBehaviour.ExcludeDerivedState) ||
    decide (compBehaviour = CompressBehaviour.UncompressedExcludeDerivedState)
  if excludeState && !effConfig pc e then ([], [])
  else
    match compBehaviour with
    | .Uncompressed | .UncompressedExcludeDerivedState =>
      findAllChildrenWithoutCompression pc e excludeState
    | .PreferIntendedConfig | .ExcludeDerivedState =>
      findAllChildrenCompressed pc e excludeState "config" "state"
    | .PreferOperationalState =>
      findAllChildrenCompressed pc e excludeState "state" "config"

/-! Unfolding equations of FindAllChildren per compress behaviour. -/

theorem FindAllChildren_Uncompressed (pc : Bool) (e : SchemaNode) :
    FindAllChildren pc e .Uncompressed =
      findAllChildrenWithoutCompression pc e false := rfl

theorem FindAllChildren_UncompressedExcl (pc : Bool) (e : SchemaNode) :
    FindAllChildren pc e .UncompressedExcludeDerivedState =
      if !effConfig pc e then ([], [])
      else findAllChildrenWithoutCompression pc e true := rfl

theorem FindAllChildren_PreferIntendedConfig (pc : Bool) (e : SchemaNode) :
    FindAllChildren pc e .PreferIntendedConfig =
      findAllChildrenCompressed pc e false "config" "state" := rfl

theorem FindAllChildren_ExcludeDerivedState (pc : Bool) (e : SchemaNode) :
    FindAllChildren pc e .ExcludeDerivedState =
      if !effConfig pc e then ([], [])
      else findAllChildrenCompressed pc e true "config" "state" := rfl

theorem FindAllChildren_PreferOperationalState (pc : Bool) (e : SchemaNode) :
    FindAllChildren pc e .PreferOperationalState =
      findAllChildrenCompressed pc e false "state" "config" := rfl

/-! Concrete schema trees used by the scenario claims and by witnesses. -/

/-- Leaf admin-state under the config container of Scenario A. -/
def adminStateConfig : SchemaNode :=
  ⟨"admin-state", .leaf, .unset, [], "/interface/config/admin-state"⟩

/-- Leaf admin-state under the state container of Scenario A. -/
def adminStateState : SchemaNode :=
  ⟨"admin-state", .leaf, .unset, [], "/interface/state/admin-state"⟩

/-- Leaf oper-state under the state container of Scenario A. -/
def operState : SchemaNode :=
  ⟨"oper-state", .leaf, .unset, [], "/interface/state/oper-state"⟩

/-- Leaf in-pkts under the counters container of Scenario A. -/
def inPkts : SchemaNode :=
  ⟨"in-pkts", .leaf, .unset, [], "/interface/state/counters/in-pkts"⟩

/-- Container counters under the state container of Scenario A. -/
def countersNode : SchemaNode :=
  ⟨"counters", .container, .unset, [inPkts], "/interface/state/counters"⟩

/-- The config container of Scenario A. -/
def configContainer : SchemaNode :=
  ⟨"config", .container, .unset, [adminStateConfig], "/interface/config"⟩

/-- The state container of Scenario A. -/
def stateContainer : SchemaNode :=
  ⟨"state", .container, .unset, [adminStateState, operState, countersNode],
   "/interface/state"⟩

/-- The interface container of Scenario A. -/
def interfaceNode : SchemaNode :=
  ⟨"interface", .container, .unset, [configContainer, stateContainer], "/interface"⟩

/-! Basic lemmas about the duplicate guard and list folds. -/

theorem find?_key_none_iff (m : List (String × SchemaNode)) (k : String) :
    m.find? (fun p => p.1 == k) = none ↔ k ∉ m.map Prod.fst := by
  induction m with
  | nil => simp
  | cons a t ih =>
    by_cases h : a.1 = k
    · simp [List.find?_cons, h]
    · simp [List.find?_cons, h, ih, Ne.symm h]

theorem addNewChild_of_found {m : List (String × SchemaNode)} {k : String}
    {q : String × SchemaNode} (v : SchemaNode) (errs : List String)
    (h : m.find? (fun p => p.1 == k) = some q) :
    addNewChild m k v errs = (m, errs ++ [v.path ++ " was duplicate"]) := by
  unfold addNewChild
  rw [h]

theorem addNewChild_of_none {m : List (String × SchemaNode)} {k : String}
    (v : SchemaNode) (errs : List String)
    (h : m.find? (fun p => p.1 == k) = none) :
    addNewChild m k v errs = (m ++ [(k, v)], errs) := by
  unfold addNewChild
  rw [h]

theorem addNewChild_of_mem {m : List (String × SchemaNode)} {k : String}
    (v : SchemaNode) (errs : List String) (h : k ∈ m.map Prod.fst) :
    addNewChild m k v errs = (m, errs ++ [v.path ++ " was duplicate"]) := by
  rcases hf : m.find? (fun p => p.1 == k) with _ | q
  · exact absurd ((find?_key_none_iff m k).mp hf) (by simp [h])
  · exact addNewChild_of_found v errs hf

theorem addNewChild_of_not_mem {m : List (String × SchemaNode)} {k : String}
    (v : SchemaNode) (errs : List String) (h : k ∉ m.map Prod.fst) :
    addNewChild m k v errs = (m ++ [(k, v)], errs) :=
  addNewChild_of_none v errs ((find?_key_none_iff m k).mpr h)

theorem foldl_congr_of_mem {α β : Type} {l : List β} {f g : α → β → α} {i : α}
    (h : ∀ b ∈ l, ∀ a, f a b = g a b) : l.foldl f i = l.foldl g i := by
  induction l generalizing i with
  | nil => rfl
  | cons b t ih =>
    rw [List.foldl_cons, List.foldl_cons, h b (by simp)]
    exact ih (fun x hx a => h x (by simp [hx]) a)

theorem foldl_filter_of_id {α β : Type} {l : List β} {p : β → Bool}
    {f : α → β → α} {i : α}
    (h : ∀ b ∈ l, p b = false → ∀ a, f a b = a) :
    l.foldl f i = (l.filter p).foldl f i := by
  induction l generalizing i with
  | nil => rfl
  | cons b t ih =>
    by_cases hb : p b
    · rw [List.foldl_cons, List.filter_cons_of_pos hb, List.foldl_cons]
      exact ih (fun x hx hpx a => h x (by simp [hx]) hpx a)
    · rw [List.foldl_cons, List.filter_cons_of_neg hb,
        h b (by simp) (by simpa using hb)]
      exact ih (fun x hx hpx a => h x (by simp [hx]) hpx a)

theorem find?_filter_of_imp {α : Type} {p q : α → Bool} {l : List α}
    (h : ∀ x ∈ l, p x = true → q x = true) :
    (l.filter q).find? p = l.find? p := by
  induction l with
  | nil => rfl
  | cons a t ih =>
    by_cases hq : q a
    · rw [List.filter_cons_of_pos hq, List.find?_cons, List.find?_cons]
      cases hp : p a
      · exact ih (fun x hx => h x (by simp [hx]))
      · rfl
    · rw [List.filter_cons_of_neg hq, List.find?_cons]
      cases hp : p a
      · exact ih (fun x hx => h x (by simp [hx]))
      · exact absurd (h a (by simp) hp) (by simpa using hq)

theorem find?_name_none_of_not_mem {l : List SchemaNode} {n : String}
    (h : n ∉ l.map SchemaNode.name) :
    l.find? (fun c => c.name == n) = none := by
  rw [List.find?_eq_none]
  intro c hc
  simp only [beq_iff_eq]
  intro hn
  exact h (List.mem_map.mpr ⟨c, hc, hn⟩)

theorem find?_self_of_nodup {l : List SchemaNode} {c : SchemaNode}
    (hnd : (l.map SchemaNode.name).Nodup) (hc : c ∈ l) :
    l.find? (fun x => x.name == c.name) = some c := by
  induction l with
  | nil => simp at hc
  | cons a t ih =>
    rcases List.mem_cons.mp hc with rfl | hct
    · simp [List.find?_cons]
    · rw [List.map_cons, List.nodup_cons] at hnd
      have hne : a.name ≠ c.name := by
        intro h
        exact hnd.1 (h ▸ List.mem_map.mpr ⟨c, hct, rfl⟩)
      rw [List.find?_cons]
      have : (a.name == c.name) = false := by simpa using hne
      rw [this]
      exact ih hnd.2 hct

/-! Lemmas on the choice/case flattener and on wrapper-freeness of the
resolved mapping. -/

theorem mem_flattenList_not_wrapper :
    ∀ (l : List SchemaNode), ∀ x ∈ flattenList l, isChoiceOrCase x = false
  | [] => by simp [flattenList]
  | c :: rest => by
    intro x hx
    simp only [flattenList] at hx
    rcases List.mem_append.mp hx with h | h
    · by_cases hc : isChoiceOrCase c
      · rw [if_pos hc] at h
        exact mem_flattenList_not_wrapper c.children x h
      · rw [if_neg hc] at h
        simp only [List.mem_singleton] at h
        subst h
        simpa using hc
    · exact mem_flattenList_not_wrapper rest x h
termination_by l => sizeOf l
decreasing_by
  all_goals simp only [List.cons.sizeOf_spec]
  · have h := sizeOf_children_lt c
    omega
  · omega

theorem mem_FindFirstNonChoiceOrCase_not_wrapper {e : SchemaNode} {x : SchemaNode}
    (h : x ∈ FindFirstNonChoiceOrCase e) : isChoiceOrCase x = false :=
  mem_flattenList_not_wrapper (children e) x h

theorem not_dir_not_wrapper {c : SchemaNode} (h : isDir c = false) :
    isChoiceOrCase c = false := by
  unfold isDir at h
  unfold isChoiceOrCase
  cases hk : c.kind <;> simp [hk] at h ⊢

/-- The mapping holds no choice or case node. -/
def wrapperFreeMap (m : List (String × SchemaNode)) : Prop :=
  ∀ p ∈ m, isChoiceOrCase p.2 = false

theorem wrapperFreeMap_addNewChild {m : List (String × SchemaNode)} {k : String}
    {v : SchemaNode} {errs : List String} (hm : wrapperFreeMap m)
    (hv : isChoiceOrCase v = false) : wrapperFreeMap (addNewChild m k v errs).1 := by
  rcases hf : m.find? (fun p => p.1 == k) with _ | q
  · rw [addNewChild_of_none v errs hf]
    intro p hp
    rcases List.mem_append.mp hp with h | h
    · exact hm p h
    · have hpv : p = (k, v) := by simpa using h
      rw [hpv]
      exact hv
  · rw [addNewChild_of_found v errs hf]
    exact hm

theorem wrapperFreeMap_flatten_fold {l : List SchemaNode}
    (hl : ∀ x ∈ l, isChoiceOrCase x = false) :
    ∀ acc : List (String × SchemaNode) × List String, wrapperFreeMap acc.1 →
      wrapperFreeMap ((l.foldl (fun a n => addNewChild a.1 n.name n a.2) acc)).1 := by
  induction l with
  | nil => intro acc h; exact h
  | cons n t ih =>
    intro acc h
    rw [List.foldl_cons]
    exact ih (fun x hx => hl x (by simp [hx]))
      _ (wrapperFreeMap_addNewChild h (hl n (by simp)))

theorem wrapperFreeMap_flatten_fold_duplist {l : List SchemaNode}
    {dup : List String} (hl : ∀ x ∈ l, isChoiceOrCase x = false) :
    ∀ acc : List (String × SchemaNode) × List String, wrapperFreeMap acc.1 →
      wrapperFreeMap ((l.foldl
        (fun a n => if dup.contains n.name then a
                    else addNewChild a.1 n.name n a.2) acc)).1 := by
  induction l with
  | nil => intro acc h; exact h
  | cons n t ih =>
    intro acc h
    rw [List.foldl_cons]
    by_cases hc : dup.contains n.name
    · rw [if_pos hc]
      exact ih (fun x hx => hl x (by simp [hx])) acc h
    · rw [if_neg hc]
      exact ih (fun x hx => hl x (by simp [hx]))
        _ (wrapperFreeMap_addNewChild h (hl n (by simp)))

theorem wrapperFreeMap_addNonChoiceChildren {m : List (String × SchemaNode)}
    {e : SchemaNode} {errs : List String} (hm : wrapperFreeMap m) :
    wrapperFreeMap (addNonChoiceChildren m e errs).1 := by
  unfold addNonChoiceChildren
  exact wrapperFreeMap_flatten_fold
    (fun x hx => mem_FindFirstNonChoiceOrCase_not_wrapper hx) (m, errs) hm

theorem wrapperFreeMap_addNonChoiceChildrenDuplist {m : List (String × SchemaNode)}
    {e : SchemaNode} {dup : List String} {errs : List String} (hm : wrapperFreeMap m) :
    wrapperFreeMap (addNonChoiceChildrenDuplist m e dup errs).1 := by
  unfold addNonChoiceChildrenDuplist
  exact wrapperFreeMap_flatten_fold_duplist
    (fun x hx => mem_FindFirstNonChoiceOrCase_not_wrapper hx) (m, errs) hm

theorem pcsgWhitelist_directChildren (csName prioData : String)
    (st : ResolveState) (g : SchemaNode) :
    (processConfigStateGrandchildWhitelist csName prioData st g).directChildren =
      st.directChildren := by
  unfold processConfigStateGrandchildWhitelist
  split
  · split <;> rfl
  · rfl

theorem pcsgWhitelist_errs (csName prioData : String)
    (st : ResolveState) (g : SchemaNode) :
    (processConfigStateGrandchildWhitelist csName prioData st g).errs = st.errs := by
  unfold processConfigStateGrandchildWhitelist
  split
  · split <;> rfl
  · rfl

theorem pcsgAdd_prioNames (csName deprioData : String)
    (st : ResolveState) (g : SchemaNode) :
    (processConfigStateGrandchildAdd csName deprioData st g).prioNames =
      st.prioNames := by
  unfold processConfigStateGrandchildAdd
  split
  · split
    · rfl
    · split <;> rfl
  · split <;> rfl

theorem wrapperFreeMap_pcsg {csName prioData deprioData : String}
    {st : ResolveState} {g : SchemaNode} (hm : wrapperFreeMap st.directChildren) :
    wrapperFreeMap (processConfigStateGrandchild csName prioData deprioData st g).directChildren := by
  unfold processConfigStateGrandchild
  rw [pcsgWhitelist_directChildren]
  unfold processConfigStateGrandchildAdd
  split
  · split
    · exact wrapperFreeMap_addNonChoiceChildrenDuplist hm
    · split
      · exact hm
      · next hg _ =>
        exact wrapperFreeMap_addNewChild hm (by simpa using hg)
  · split
    · exact wrapperFreeMap_addNonChoiceChildren hm
    · next hg =>
      exact wrapperFreeMap_addNewChild hm (by simpa using hg)

theorem wrapperFreeMap_pcsg_fold {l : List SchemaNode}
    {csName prioData deprioData : String} :
    ∀ st : ResolveState, wrapperFreeMap st.directChildren →
      wrapperFreeMap ((l.foldl
        (processConfigStateGrandchild csName prioData deprioData) st)).directChildren := by
  induction l with
  | nil => intro st h; exact h
  | cons g t ih =>
    intro st h
    rw [List.foldl_cons]
    exact ih _ (wrapperFreeMap_pcsg h)

theorem wrapperFreeMap_processDirChild {st : ResolveState} {c : SchemaNode}
    (hm : wrapperFreeMap st.directChildren) :
    wrapperFreeMap (processDirChild st c).directChildren := by
  unfold processDirChild
  split
  · exact wrapperFreeMap_addNonChoiceChildren hm
  · next hc =>
    exact wrapperFreeMap_addNewChild hm (by simpa using hc)

theorem singletonListChild_kind {c g : SchemaNode}
    (h : singletonListChild c = some g) : g.kind = NodeKind.list := by
  unfold singletonListChild at h
  rcases hc : children c with _ | ⟨x, _ | ⟨y, t⟩⟩ <;> rw [hc] at h
  · exact absurd h (by simp)
  · have h2 : (if x.kind = NodeKind.list then some x else none) = some g := h
    by_cases hk : x.kind = NodeKind.list
    · rw [if_pos hk] at h2
      injection h2 with h3
      subst h3
      exact hk
    · rw [if_neg hk] at h2
      exact absurd h2 (by simp)
  · exact absurd h (by simp)

theorem kind_list_not_wrapper {g : SchemaNode} (h : g.kind = NodeKind.list) :
    isChoiceOrCase g = false := by
  unfold isChoiceOrCase
  rw [h]

theorem wrapperFreeMap_processChildBody {pc : Bool} {e : SchemaNode}
    {excludeState : Bool} {prioData deprioData : String}
    {st : ResolveState} {c : SchemaNode} (hm : wrapperFreeMap st.directChildren) :
    wrapperFreeMap (processChildBody pc e excludeState prioData deprioData st c).directChildren := by
  unfold processChildBody
  split
  · exact hm
  · split
    · exact wrapperFreeMap_pcsg_fold st hm
    · split
      · split
        · rename_i g hs
          split
          · exact hm
          · exact wrapperFreeMap_addNewChild hm
              (kind_list_not_wrapper (singletonListChild_kind hs))
        · exact wrapperFreeMap_processDirChild hm
      · rename_i hdir
        split
        · exact hm
        · exact wrapperFreeMap_addNewChild hm
            (not_dir_not_wrapper (by simpa using hdir))

theorem wrapperFreeMap_processChild {pc : Bool} {e : SchemaNode}
    {excludeState : Bool} {prioData deprioData : String}
    {st : ResolveState} {currChild : String} (hm : wrapperFreeMap st.directChildren) :
    wrapperFreeMap (processChild pc e excludeState prioData deprioData st currChild).directChildren := by
  unfold processChild
  rcases hl : lookupChild e currChild with _ | c
  · exact hm
  · exact wrapperFreeMap_processChildBody hm

theorem wrapperFreeMap_processChild_fold {pc : Bool} {e : SchemaNode}
    {excludeState : Bool} {prioData deprioData : String} {l : List String} :
    ∀ st : ResolveState, wrapperFreeMap st.directChildren →
      wrapperFreeMap ((l.foldl
        (processChild pc e excludeState prioData deprioData) st)).directChildren := by
  induction l with
  | nil => intro st h; exact h
  | cons n t ih =>
    intro st h
    rw [List.foldl_cons]
    exact ih _ (wrapperFreeMap_processChild h)

theorem wrapperFreeMap_uncompressed {pc : Bool} {e : SchemaNode}
    {excludeState : Bool} :
    wrapperFreeMap (findAllChildrenWithoutCompression pc e excludeState).1 := by
  unfold findAllChildrenWithoutCompression
  generalize hacc : (([], []) : List (String × SchemaNode) × List String) = acc
  have hwf : wrapperFreeMap acc.1 := by
    rw [← hacc]
    intro p hp
    simp at hp
  clear hacc
  induction children e generalizing acc with
  | nil => exact hwf
  | cons child t ih =>
    rw [List.foldl_cons]
    apply ih
    split
    · exact hwf
    · split
      · exact wrapperFreeMap_addNonChoiceChildren hwf
      · next hcc =>
        exact wrapperFreeMap_addNewChild hwf (by simpa using hcc)

theorem wrapperFreeMap_compressed {pc : Bool} {e : SchemaNode}
    {excludeState : Bool} {prioData deprioData : String} :
    wrapperFreeMap (findAllChildrenCompressed pc e excludeState prioData deprioData).1 := by
  unfold findAllChildrenCompressed
  apply wrapperFreeMap_processChild_fold
  intro p hp
  simp at hp

theorem wrapperFreeMap_FindAllChildren {pc : Bool} {e : SchemaNode}
    {cb : CompressBehaviour} :
    wrapperFreeMap (FindAllChildren pc e cb).1 := by
  have hempty : wrapperFreeMap (([], []) : List (String × SchemaNode) × List String).1 := by
    intro p hp
    simp at hp
  cases cb
  · rw [FindAllChildren_Uncompressed]
    exact wrapperFreeMap_uncompressed
  · rw [FindAllChildren_UncompressedExcl]
    split
    · exact hempty
    · exact wrapperFreeMap_uncompressed
  · rw [FindAllChildren_PreferIntendedConfig]
    exact wrapperFreeMap_compressed
  · rw [FindAllChildren_PreferOperationalState]
    exact wrapperFreeMap_compressed
  · rw [FindAllChildren_ExcludeDerivedState]
    split
    · exact hempty
    · exact wrapperFreeMap_compressed

/-! Error accumulation: every step only appends to the error list. -/

theorem addNewChild_errs_suffix (m : List (String × SchemaNode)) (k : String)
    (v : SchemaNode) (errs : List String) :
    ∃ t, (addNewChild m k v errs).2 = errs ++ t := by
  rcases hf : m.find? (fun p => p.1 == k) with _ | q
  · exact ⟨[], by rw [addNewChild_of_none v errs hf]; simp⟩
  · exact ⟨[v.path ++ " was duplicate"], by rw [addNewChild_of_found v errs hf]⟩

theorem flatten_fold_errs_suffix (l : List SchemaNode) :
    ∀ acc : List (String × SchemaNode) × List String,
      ∃ t, ((l.foldl (fun a n => addNewChild a.1 n.name n a.2) acc)).2 = acc.2 ++ t := by
  induction l with
  | nil => exact fun acc => ⟨[], by simp⟩
  | cons n r ih =>
    intro acc
    rw [List.foldl_cons]
    rcases addNewChild_errs_suffix acc.1 n.name n acc.2 with ⟨t1, ht1⟩
    rcases ih (addNewChild acc.1 n.name n acc.2) with ⟨t2, ht2⟩
    exact ⟨t1 ++ t2, by rw [ht2, ht1, List.append_assoc]⟩

theorem flatten_fold_duplist_errs_suffix (l : List SchemaNode) (dup : List String) :
    ∀ acc : List (String × SchemaNode) × List String,
      ∃ t, ((l.foldl (fun a n =>
        if dup.contains n.name then a else addNewChild a.1 n.name n a.2) acc)).2 =
        acc.2 ++ t := by
  induction l with
  | nil => exact fun acc => ⟨[], by simp⟩
  | cons n r ih =>
    intro acc
    rw [List.foldl_cons]
    by_cases hc : dup.contains n.name
    · rw [if_pos hc]
      exact ih acc
    · rw [if_neg hc]
      rcases addNewChild_errs_suffix acc.1 n.name n acc.2 with ⟨t1, ht1⟩
      rcases ih (addNewChild acc.1 n.name n acc.2) with ⟨t2, ht2⟩
      exact ⟨t1 ++ t2, by rw [ht2, ht1, List.append_assoc]⟩

theorem addNonChoiceChildren_errs_suffix (m : List (String × SchemaNode))
    (e : SchemaNode) (errs : List String) :
    ∃ t, (addNonChoiceChildren m e errs).2 = errs ++ t :=
  flatten_fold_errs_suffix (FindFirstNonChoiceOrCase e) (m, errs)

theorem addNonChoiceChildrenDuplist_errs_suffix (m : List (String × SchemaNode))
    (e : SchemaNode) (dup : List String) (errs : List String) :
    ∃ t, (addNonChoiceChildrenDuplist m e dup errs).2 = errs ++ t :=
  flatten_fold_duplist_errs_suffix (FindFirstNonChoiceOrCase e) dup (m, errs)

theorem pcsg_errs_suffix (csName prioData deprioData : String)
    (st : ResolveState) (g : SchemaNode) :
    ∃ t, (processConfigStateGrandchild csName prioData deprioData st g).errs =
      st.errs ++ t := by
  unfold processConfigStateGrandchild
  rw [pcsgWhitelist_errs]
  unfold processConfigStateGrandchildAdd
  split
  · split
    · exact addNonChoiceChildrenDuplist_errs_suffix _ _ _ _
    · split
      · exact ⟨[], by simp⟩
      · exact addNewChild_errs_suffix _ _ _ _
  · split
    · exact addNonChoiceChildren_errs_suffix _ _ _
    · exact addNewChild_errs_suffix _ _ _ _

theorem pcsg_fold_errs_suffix (l : List SchemaNode)
    (csName prioData deprioData : String) :
    ∀ st : ResolveState,
      ∃ t, ((l.foldl (processConfigStateGrandchild csName prioData deprioData) st)).errs =
        st.errs ++ t := by
  induction l with
  | nil => exact fun st => ⟨[], by simp⟩
  | cons g r ih =>
    intro st
    rw [List.foldl_cons]
    rcases pcsg_errs_suffix csName prioData deprioData st g with ⟨t1, ht1⟩
    rcases ih (processConfigStateGrandchild csName prioData deprioData st g) with ⟨t2, ht2⟩
    exact ⟨t1 ++ t2, by rw [ht2, ht1, List.append_assoc]⟩

theorem processDirChild_errs_suffix (st : ResolveState) (c : SchemaNode) :
    ∃ t, (processDirChild st c).errs = st.errs ++ t := by
  unfold processDirChild
  split
  · exact addNonChoiceChildren_errs_suffix _ _ _
  · exact addNewChild_errs_suffix _ _ _ _

theorem processChildBody_errs_suffix (pc : Bool) (e : SchemaNode)
    (excludeState : Bool) (prioData deprioData : String)
    (st : ResolveState) (c : SchemaNode) :
    ∃ t, (processChildBody pc e excludeState prioData deprioData st c).errs =
      st.errs ++ t := by
  unfold processChildBody
  split
  · exact ⟨[], by simp⟩
  · split
    · exact pcsg_fold_errs_suffix _ _ _ _ st
    · split
      · split
        · split
          · exact ⟨[], by simp⟩
          · exact addNewChild_errs_suffix _ _ _ _
        · exact processDirChild_errs_suffix st c
      · split
        · exact ⟨[], by simp⟩
        · exact addNewChild_errs_suffix _ _ _ _

theorem processChild_errs_suffix (pc : Bool) (e : SchemaNode)
    (excludeState : Bool) (prioData deprioData : String)
    (st : ResolveState) (currChild : String) :
    ∃ t, (processChild pc e excludeState prioData deprioData st currChild).errs =
      st.errs ++ t := by
  unfold processChild
  rcases hl : lookupChild e currChild with _ | c
  · exact ⟨[], by simp⟩
  · exact processChildBody_errs_suffix pc e excludeState prioData deprioData st c

/-! A parametric parent with a config and a state container holding leaves,
used to settle the whitelist symmetry claim. -/

/-- A leaf named n under the container named cn of the parametric parent. -/
def csLeaf (cn n : String) : SchemaNode :=
  ⟨n, .leaf, .unset, [], "/parent/" ++ cn ++ "/" ++ n⟩

/-- A config or state container named cn declaring the leaves named ns. -/
def csBox (cn : String) (ns : List String) : SchemaNode :=
  ⟨cn, .container, .unset, ns.map (csLeaf cn), "/parent/" ++ cn⟩

/-- A parent container with a config container declaring leaves cns and a
state container declaring leaves sns. -/
def csParent (cns sns : List String) : SchemaNode :=
  ⟨"parent", .container, .unset, [csBox "config" cns, csBox "state" sns], "/parent"⟩

theorem processChild_eq_body {pc : Bool} {e : SchemaNode} {excludeState : Bool}
    {prioData deprioData : String} {st : ResolveState} {n : String}
    {c : SchemaNode} (hl : lookupChild e n = some c) :
    processChild pc e excludeState prioData deprioData st n =
      processChildBody pc e excludeState prioData deprioData st c := by
  unfold processChild
  rw [hl]

theorem processChildBody_configState (pc : Bool) (e : SchemaNode)
    (prioData deprioData : String) (st : ResolveState) (c : SchemaNode)
    (hcs : isConfigState c = true) :
    processChildBody pc e false prioData deprioData st c =
      (children c).foldl
        (processConfigStateGrandchild c.name prioData deprioData) st := by
  unfold processChildBody
  rw [hcs]
  simp

theorem pcsg_nonwrapper_prio (cn prioData deprioData : String) (st : ResolveState)
    (hd : (cn == deprioData) = false) (hp : (cn == prioData) = true)
    (g : SchemaNode) (hg : isChoiceOrCase g = false)
    (hfresh : g.name ∉ st.directChildren.map Prod.fst) :
    processConfigStateGrandchild cn prioData deprioData st g =
      ⟨st.prioNames ++ [g.name], st.directChildren ++ [(g.name, g)], st.errs⟩ := by
  unfold processConfigStateGrandchild processConfigStateGrandchildAdd
    processConfigStateGrandchildWhitelist
  rw [hd, hp, hg, addNewChild_of_not_mem g st.errs hfresh]
  rfl

theorem pcsg_nonwrapper_deprio_skip (cn prioData deprioData : String)
    (st : ResolveState) (hd : (cn == deprioData) = true)
    (hp : (cn == prioData) = false) (g : SchemaNode)
    (hg : isChoiceOrCase g = false)
    (hmem : st.prioNames.contains g.name = true) :
    processConfigStateGrandchild cn prioData deprioData st g = st := by
  unfold processConfigStateGrandchild processConfigStateGrandchildAdd
    processConfigStateGrandchildWhitelist
  rw [hd, hp, hg, hmem]
  rfl

theorem pcsg_nonwrapper_deprio_add (cn prioData deprioData : String)
    (st : ResolveState) (hd : (cn == deprioData) = true)
    (hp : (cn == prioData) = false) (g : SchemaNode)
    (hg : isChoiceOrCase g = false)
    (hnmem : st.prioNames.contains g.name = false)
    (hfresh : g.name ∉ st.directChildren.map Prod.fst) :
    processConfigStateGrandchild cn prioData deprioData st g =
      ⟨st.prioNames, st.directChildren ++ [(g.name, g)], st.errs⟩ := by
  unfold processConfigStateGrandchild processConfigStateGrandchildAdd
    processConfigStateGrandchildWhitelist
  rw [hd, hp, hg, hnmem, addNewChild_of_not_mem g st.errs hfresh]
  rfl

theorem pcsg_fold_prio (cn prioData deprioData : String)
    (hd : (cn == deprioData) = false) (hp : (cn == prioData) = true) :
    ∀ (ns : List String) (st : ResolveState), ns.Nodup →
      (∀ n ∈ ns, n ∉ st.directChildren.map Prod.fst) →
      (ns.map (csLeaf cn)).foldl
          (processConfigStateGrandchild cn prioData deprioData) st =
        ⟨st.prioNames ++ ns,
         st.directChildren ++ ns.map (fun n => (n, csLeaf cn n)), st.errs⟩ := by
  intro ns
  induction ns with
  | nil =>
    intro st _ _
    simp
  | cons n r ih =>
    intro st hnd hfresh
    rw [List.map_cons, List.foldl_cons]
    rw [pcsg_nonwrapper_prio cn prioData deprioData st hd hp (csLeaf cn n) rfl
      (hfresh n (by simp))]
    have hnd2 := List.nodup_cons.mp hnd
    have hfresh2 : ∀ m ∈ r,
        m ∉ ((st.directChildren ++ [(n, csLeaf cn n)]).map Prod.fst) := by
      intro m hm hcon
      rw [List.map_append] at hcon
      rcases List.mem_append.mp hcon with hk | hk
      · exact hfresh m (List.mem_cons_of_mem n hm) hk
      · have hmn : m = n := by simpa using hk
        exact hnd2.1 (hmn ▸ hm)
    have hih := ih ⟨st.prioNames ++ [n],
      st.directChildren ++ [(n, csLeaf cn n)], st.errs⟩ hnd2.2 hfresh2
    exact hih.trans (by simp)

theorem pcsg_fold_deprio (cn prioData deprioData : String)
    (hd : (cn == deprioData) = true) (hp : (cn == prioData) = false) :
    ∀ (ns : List String) (st : ResolveState), ns.Nodup →
      (∀ n ∈ ns, n ∈ st.prioNames ∨ n ∉ st.directChildren.map Prod.fst) →
      (ns.map (csLeaf cn)).foldl
          (processConfigStateGrandchild cn prioData deprioData) st =
        ⟨st.prioNames,
         st.directChildren ++
           (ns.filter (fun n => !st.prioNames.contains n)).map
             (fun n => (n, csLeaf cn n)),
         st.errs⟩ := by
  intro ns
  induction ns with
  | nil =>
    intro st _ _
    simp
  | cons n r ih =>
    intro st hnd hok
    rw [List.map_cons, List.foldl_cons]
    have hnd2 := List.nodup_cons.mp hnd
    by_cases hmem : st.prioNames.contains n = true
    · rw [pcsg_nonwrapper_deprio_skip cn prioData deprioData st hd hp
        (csLeaf cn n) rfl hmem]
      have hih := ih st hnd2.2 (fun m hm => hok m (List.mem_cons_of_mem n hm))
      refine hih.trans ?_
      rw [List.filter_cons_of_neg (by rw [hmem]; decide)]
    · have hmem2 : st.prioNames.contains n = false := by
        simpa using hmem
      have hfresh : n ∉ st.directChildren.map Prod.fst := by
        rcases hok n (by simp) with h | h
        · have hcontra : st.prioNames.contains n = true := List.elem_iff.mpr h
          rw [hmem2] at hcontra
          exact absurd hcontra (by decide)
        · exact h
      rw [pcsg_nonwrapper_deprio_add cn prioData deprioData st hd hp
        (csLeaf cn n) rfl hmem2 hfresh]
      have hok2 : ∀ m ∈ r, m ∈ st.prioNames ∨
          m ∉ ((st.directChildren ++ [(n, csLeaf cn n)]).map Prod.fst) := by
        intro m hm
        rcases hok m (List.mem_cons_of_mem n hm) with h | h
        · exact Or.inl h
        · refine Or.inr ?_
          intro hcon
          rw [List.map_append] at hcon
          rcases List.mem_append.mp hcon with hk | hk
          · exact h hk
          · have hmn : m = n := by simpa using hk
            exact hnd2.1 (hmn ▸ hm)
      have hih := ih ⟨st.prioNames,
        st.directChildren ++ [(n, csLeaf cn n)], st.errs⟩ hnd2.2 hok2
      refine hih.trans ?_
      rw [List.filter_cons_of_pos (by rw [hmem2]; rfl)]
      simp

theorem csParent_resolve_pIC (pc : Bool) (cns sns : List String)
    (h1 : cns.Nodup) (h2 : sns.Nodup) :
    FindAllChildren pc (csParent cns sns) CompressBehaviour.PreferIntendedConfig =
      (cns.map (fun n => (n, csLeaf "config" n)) ++
        (sns.filter (fun n => !cns.contains n)).map (fun n => (n, csLeaf "state" n)),
       []) := by
  have hunf : FindAllChildren pc (csParent cns sns) CompressBehaviour.PreferIntendedConfig =
      (((orderedChildNames (csParent cns sns) "config").foldl
          (processChild pc (csParent cns sns) false "config" "state")
          ⟨[], [], []⟩).directChildren,
       ((orderedChildNames (csParent cns sns) "config").foldl
          (processChild pc (csParent cns sns) false "config" "state")
          ⟨[], [], []⟩).errs) := rfl
  rw [hunf]
  have hord : orderedChildNames (csParent cns sns) "config" = ["config", "state"] := rfl
  rw [hord]
  simp only [List.foldl_cons, List.foldl_nil]
  rw [processChild_eq_body
    (show lookupChild (csParent cns sns) "config" = some (csBox "config" cns) from rfl)]
  rw [processChildBody_configState pc (csParent cns sns) "config" "state"
    ⟨[], [], []⟩ (csBox "config" cns) rfl]
  rw [show children (csBox "config" cns) = cns.map (csLeaf "config") from rfl]
  rw [show (csBox "config" cns).name = "config" from rfl]
  have hfold1 : (cns.map (csLeaf "config")).foldl
      (processConfigStateGrandchild "config" "config" "state") ⟨[], [], []⟩ =
      ⟨cns, cns.map (fun n => (n, csLeaf "config" n)), []⟩ :=
    (pcsg_fold_prio "config" "config" "state" rfl rfl cns ⟨[], [], []⟩ h1
      (by simp)).trans (by simp)
  rw [hfold1]
  rw [processChild_eq_body
    (show lookupChild (csParent cns sns) "state" = some (csBox "state" sns) from rfl)]
  rw [processChildBody_configState pc (csParent cns sns) "config" "state"
    ⟨cns, cns.map (fun n => (n, csLeaf "config" n)), []⟩ (csBox "state" sns) rfl]
  rw [show children (csBox "state" sns) = sns.map (csLeaf "state") from rfl]
  rw [show (csBox "state" sns).name = "state" from rfl]
  have hkeys : ((cns.map (fun n => (n, csLeaf "config" n))).map Prod.fst) = cns := by
    rw [List.map_map]
    exact List.map_id'' (fun x => rfl) cns
  have hok : ∀ n ∈ sns, n ∈ cns ∨
      n ∉ ((cns.map (fun n => (n, csLeaf "config" n))).map Prod.fst) := by
    intro n _
    by_cases hc : n ∈ cns
    · exact Or.inl hc
    · refine Or.inr ?_
      rw [hkeys]
      exact hc
  have hfold2 : (sns.map (csLeaf "state")).foldl
      (processConfigStateGrandchild "state" "config" "state")
      ⟨cns, cns.map (fun n => (n, csLeaf "config" n)), []⟩ =
      ⟨cns,
       cns.map (fun n => (n, csLeaf "config" n)) ++
         (sns.filter (fun n => !cns.contains n)).map (fun n => (n, csLeaf "state" n)),
       []⟩ :=
    (pcsg_fold_deprio "state" "config" "state" rfl rfl sns
      ⟨cns, cns.map (fun n => (n, csLeaf "config" n)), []⟩ h2 hok).trans (by simp)
  rw [hfold2]

theorem csParent_resolve_pOS (pc : Bool) (cns sns : List String)
    (h1 : cns.Nodup) (h2 : sns.Nodup) :
    FindAllChildren pc (csParent cns sns) CompressBehaviour.PreferOperationalState =
      (sns.map (fun n => (n, csLeaf "state" n)) ++
        (cns.filter (fun n => !sns.contains n)).map (fun n => (n, csLeaf "config" n)),
       []) := by
  have hunf : FindAllChildren pc (csParent cns sns) CompressBehaviour.PreferOperationalState =
      (((orderedChildNames (csParent cns sns) "state").foldl
          (processChild pc (csParent cns sns) false "state" "config")
          ⟨[], [], []⟩).directChildren,
       ((orderedChildNames (csParent cns sns) "state").foldl
          (processChild pc (csParent cns sns) false "state" "config")
          ⟨[], [], []⟩).errs) := rfl
  rw [hunf]
  have hord : orderedChildNames (csParent cns sns) "state" = ["state", "config"] := rfl
  rw [hord]
  simp only [List.foldl_cons, List.foldl_nil]
  rw [processChild_eq_body
    (show lookupChild (csParent cns sns) "state" = some (csBox "state" sns) from rfl)]
  rw [processChildBody_configState pc (csParent cns sns) "state" "config"
    ⟨[], [], []⟩ (csBox "state" sns) rfl]
  rw [show children (csBox "state" sns) = sns.map (csLeaf "state") from rfl]
  rw [show (csBox "state" sns).name = "state" from rfl]
  have hfold1 : (sns.map (csLeaf "state")).foldl
      (processConfigStateGrandchild "state" "state" "config") ⟨[], [], []⟩ =
      ⟨sns, sns.map (fun n => (n, csLeaf "state" n)), []⟩ :=
    (pcsg_fold_prio "state" "state" "config" rfl rfl sns ⟨[], [], []⟩ h2
      (by simp)).trans (by simp)
  rw [hfold1]
  rw [processChild_eq_body
    (show lookupChild (csParent cns sns) "config" = some (csBox "config" cns) from rfl)]
  rw [processChildBody_configState pc (csParent cns sns) "state" "config"
    ⟨sns, sns.map (fun n => (n, csLeaf "state" n)), []⟩ (csBox "config" cns) rfl]
  rw [show children (csBox "config" cns) = cns.map (csLeaf "config") from rfl]
  rw [show (csBox "config" cns).name = "config" from rfl]
  have hkeys : ((sns.map (fun n => (n, csLeaf "state" n))).map Prod.fst) = sns := by
    rw [List.map_map]
    exact List.map_id'' (fun x => rfl) sns
  have hok : ∀ n ∈ cns, n ∈ sns ∨
      n ∉ ((sns.map (fun n => (n, csLeaf "state" n))).map Prod.fst) := by
    intro n _
    by_cases hc : n ∈ sns
    · exact Or.inl hc
    · refine Or.inr ?_
      rw [hkeys]
      exact hc
  have hfold2 : (cns.map (csLeaf "config")).foldl
      (processConfigStateGrandchild "config" "state" "config")
      ⟨sns, sns.map (fun n => (n, csLeaf "state" n)), []⟩ =
      ⟨sns,
       sns.map (fun n => (n, csLeaf "state" n)) ++
         (cns.filter (fun n => !sns.contains n)).map (fun n => (n, csLeaf "config" n)),
       []⟩ :=
    (pcsg_fold_deprio "config" "state" "config" rfl rfl cns
      ⟨sns, sns.map (fun n => (n, csLeaf "state" n)), []⟩ h1 hok).trans (by simp)
  rw [hfold2]

/-! Congruence lemmas: the compressed loop only consults the queried node
through its kind, its config statement and name lookups. -/

theorem effConfig_congr {pc : Bool} {e e' : SchemaNode}
    (h : e'.config = e.config) : effConfig pc e' = effConfig pc e := by
  unfold effConfig
  rw [h]

theorem processChildBody_congr_env {pc excludeState : Bool}
    {prioData deprioData : String} {e e' : SchemaNode}
    (hk : e'.kind = e.kind) (hc : e'.config = e.config)
    (st : ResolveState) (c : SchemaNode) :
    processChildBody pc e' excludeState prioData deprioData st c =
      processChildBody pc e excludeState prioData deprioData st c := by
  unfold processChildBody
  rw [effConfig_congr hc, hk]

theorem processChild_congr {pc excludeState : Bool}
    {prioData deprioData : String} {e e' : SchemaNode} {n : String}
    (hk : e'.kind = e.kind) (hc : e'.config = e.config)
    (hl : lookupChild e' n = lookupChild e n) (st : ResolveState) :
    processChild pc e' excludeState prioData deprioData st n =
      processChild pc e excludeState prioData deprioData st n := by
  unfold processChild
  rw [hl]
  cases lookupChild e n with
  | none => rfl
  | some c => exact processChildBody_congr_env hk hc st c

theorem processChild_none_id {pc excludeState : Bool}
    {prioData deprioData : String} {e : SchemaNode} {n : String}
    (hl : lookupChild e n = none) (st : ResolveState) :
    processChild pc e excludeState prioData deprioData st n = st := by
  unfold processChild
  rw [hl]

theorem processChild_leafref_in_list_id {pc excludeState : Bool}
    {prioData deprioData : String} {e c : SchemaNode} {n : String}
    (hkind : e.kind = NodeKind.list) (hl : lookupChild e n = some c)
    (hc : c.kind = NodeKind.leafref) (st : ResolveState) :
    processChild pc e excludeState prioData deprioData st n = st := by
  rw [processChild_eq_body hl]
  unfold processChildBody
  have hdir : isDir c = false := by
    unfold isDir
    rw [hc]
  have hcs : isConfigState c = false := by
    unfold isConfigState
    rw [hdir]
    rfl
  rw [hcs, hdir]
  rw [if_pos (show e.kind = NodeKind.list ∧ c.kind = NodeKind.leafref from ⟨hkind, hc⟩)]
  split <;> rfl

theorem mem_tailNames {l : List SchemaNode} {prio n : String}
    (h : n ∈ l.filterMap (fun c => if c.name = prio then none else some c.name)) :
    n ≠ prio := by
  rcases List.mem_filterMap.mp h with ⟨c, _, hfc⟩
  by_cases hcp : c.name = prio
  · rw [if_pos hcp] at hfc
    cases hfc
  · rw [if_neg hcp] at hfc
    injection hfc with h2
    subst h2
    exact hcp

theorem tailNames_filter_prio (l : List SchemaNode) (prio : String) :
    (l.filter (fun c => !(c.name == prio))).filterMap
        (fun c => if c.name = prio then none else some c.name) =
      l.filterMap (fun c => if c.name = prio then none else some c.name) := by
  induction l with
  | nil => rfl
  | cons c t ih =>
    by_cases hc : c.name = prio
    · rw [List.filter_cons_of_neg (by simp [hc]),
        List.filterMap_cons_none (by rw [if_pos hc]), ih]
    · rw [List.filter_cons_of_pos (by simp [hc]),
        List.filterMap_cons_some (by rw [if_neg hc]),
        List.filterMap_cons_some (by rw [if_neg hc]), ih]

theorem find?_name_cons_of_pos {a : SchemaNode} {t : List SchemaNode} {n : String}
    (hb : (a.name == n) = true) :
    (a :: t).find? (fun x => x.name == n) = some a := by
  simp [List.find?_cons, hb]

theorem find?_name_cons_of_neg {a : SchemaNode} {t : List SchemaNode} {n : String}
    (hb : (a.name == n) = false) :
    (a :: t).find? (fun x => x.name == n) = t.find? (fun x => x.name == n) := by
  simp [List.find?_cons, hb]

theorem find?_filter_none {l : List SchemaNode} {q : SchemaNode → Bool}
    {pp : SchemaNode → Bool} (h : l.find? pp = none) :
    (l.filter q).find? pp = none := by
  rw [List.find?_eq_none] at h ⊢
  intro x hx
  exact h x (List.mem_of_mem_filter hx)

theorem find?_filter_some {l : List SchemaNode} {q : SchemaNode → Bool}
    {n : String} {c : SchemaNode}
    (hf : l.find? (fun x => x.name == n) = some c) (hq : q c = true) :
    (l.filter q).find? (fun x => x.name == n) = some c := by
  induction l with
  | nil => simp at hf
  | cons a t ih =>
    by_cases hb : (a.name == n) = true
    · rw [find?_name_cons_of_pos hb] at hf
      injection hf with hf2
      subst hf2
      rw [List.filter_cons_of_pos hq, find?_name_cons_of_pos hb]
    · have hb2 : (a.name == n) = false := by simpa using hb
      rw [find?_name_cons_of_neg hb2] at hf
      cases hqa : q a
      · rw [List.filter_cons_of_neg (by simp [hqa])]
        exact ih hf
      · rw [List.filter_cons_of_pos hqa, find?_name_cons_of_neg hb2]
        exact ih hf

theorem find?_filter_dropped {l : List SchemaNode} {q : SchemaNode → Bool}
    {n : String} {c : SchemaNode} (hnd : (l.map SchemaNode.name).Nodup)
    (hf : l.find? (fun x => x.name == n) = some c) (hq : q c = false) :
    (l.filter q).find? (fun x => x.name == n) = none := by
  induction l with
  | nil => simp at hf
  | cons a t ih =>
    rw [List.map_cons, List.nodup_cons] at hnd
    by_cases hb : (a.name == n) = true
    · rw [find?_name_cons_of_pos hb] at hf
      injection hf with hf2
      subst hf2
      rw [List.filter_cons_of_neg (by simp [hq])]
      apply find?_filter_none
      apply find?_name_none_of_not_mem
      have han : a.name = n := by simpa using hb
      rw [← han]
      exact hnd.1
    · have hb2 : (a.name == n) = false := by simpa using hb
      rw [find?_name_cons_of_neg hb2] at hf
      cases hqa : q a
      · rw [List.filter_cons_of_neg (by simp [hqa])]
        exact ih hnd.2 hf
      · rw [List.filter_cons_of_pos hqa, find?_name_cons_of_neg hb2]
        exact ih hnd.2 hf

theorem filterMap_filter_comm {l : List SchemaNode} {q : SchemaNode → Bool}
    {p : String → Bool} {pd : String}
    (hpq : ∀ c ∈ l, c.name ≠ pd → p c.name = q c) :
    (l.filter q).filterMap (fun c => if c.name = pd then none else some c.name) =
      (l.filterMap (fun c => if c.name = pd then none else some c.name)).filter p := by
  induction l with
  | nil => rfl
  | cons a t ih =>
    have hih := ih (fun c hc => hpq c (List.mem_cons_of_mem a hc))
    by_cases hap : a.name = pd
    · rw [List.filterMap_cons_none (by rw [if_pos hap])]
      cases hqa : q a
      · rw [List.filter_cons_of_neg (by simp [hqa])]
        exact hih
      · rw [List.filter_cons_of_pos hqa,
          List.filterMap_cons_none (by rw [if_pos hap])]
        exact hih
    · have hp := hpq a (by simp) hap
      rw [List.filterMap_cons_some (by rw [if_neg hap])]
      cases hqa : q a
      · rw [List.filter_cons_of_neg (by simp [hqa]),
          List.filter_cons_of_neg (by rw [hp, hqa]; simp)]
        exact hih
      · rw [List.filter_cons_of_pos hqa,
          List.filterMap_cons_some (by rw [if_neg hap]),
          List.filter_cons_of_pos (by rw [hp, hqa])]
        rw [hih]

/-! The prioritized-name child of a non-container non-list node is dropped
entirely by the compressed path, and leafref children of a list are never
processed. -/

theorem findAllChildrenCompressed_eq_fold (pc : Bool) (e : SchemaNode) (ex : Bool)
    (pd dd : String) :
    findAllChildrenCompressed pc e ex pd dd =
      (((orderedChildNames e pd).foldl (processChild pc e ex pd dd)
          ⟨[], [], []⟩).directChildren,
       ((orderedChildNames e pd).foldl (processChild pc e ex pd dd)
          ⟨[], [], []⟩).errs) := rfl

/-- The node e with the children named pd removed. -/
def dropPrioChildren (e : SchemaNode) (pd : String) : SchemaNode :=
  { e with children := e.children.filter (fun c => !(c.name == pd)) }

/-- The node e with its leafref children removed. -/
def dropLeafrefChildren (e : SchemaNode) : SchemaNode :=
  { e with children := e.children.filter (fun c => !decide (c.kind = NodeKind.leafref)) }

/-- Whether the child of e reached by name n is not a leafref. -/
def keepName (e : SchemaNode) (n : String) : Bool :=
  match lookupChild e n with
  | some c => !decide (c.kind = NodeKind.leafref)
  | none => true

theorem orderedChildNames_not_dir (e : SchemaNode) (pd : String)
    (hkc : e.kind ≠ NodeKind.container) (hkl : e.kind ≠ NodeKind.list) :
    orderedChildNames e pd =
      (children e).filterMap (fun c => if c.name = pd then none else some c.name) := by
  unfold orderedChildNames
  rw [if_neg (show ¬((e.kind = NodeKind.container ∨ e.kind = NodeKind.list) ∧
      (lookupChild e pd).isSome = true) from
    fun hcond => hcond.1.elim (fun h1 => hkc h1) (fun h1 => hkl h1))]
  rw [List.nil_append]

theorem findAllChildrenCompressed_drop_prio (pc : Bool) (e : SchemaNode)
    (ex : Bool) (pd dd : String)
    (hkc : e.kind ≠ NodeKind.container) (hkl : e.kind ≠ NodeKind.list) :
    findAllChildrenCompressed pc (dropPrioChildren e pd) ex pd dd =
      findAllChildrenCompressed pc e ex pd dd := by
  have h1 := orderedChildNames_not_dir e pd hkc hkl
  have h2 : orderedChildNames (dropPrioChildren e pd) pd =
      (children e).filterMap (fun c => if c.name = pd then none else some c.name) :=
    (orderedChildNames_not_dir (dropPrioChildren e pd) pd hkc hkl).trans
      (tailNames_filter_prio e.children pd)
  rw [findAllChildrenCompressed_eq_fold pc (dropPrioChildren e pd) ex pd dd,
    findAllChildrenCompressed_eq_fold pc e ex pd dd, h1, h2]
  have hsteps : ∀ n ∈ (children e).filterMap
      (fun c => if c.name = pd then none else some c.name), ∀ st,
      processChild pc (dropPrioChildren e pd) ex pd dd st n =
        processChild pc e ex pd dd st n := by
    intro n hn st
    have hnp : n ≠ pd := mem_tailNames hn
    refine processChild_congr ?_ ?_ ?_ st
    · rfl
    · rfl
    show (e.children.filter (fun c => !(c.name == pd))).find? (fun c => c.name == n) =
      e.children.find? (fun c => c.name == n)
    apply find?_filter_of_imp
    intro x _ hpx
    have hxn : x.name = n := by simpa using hpx
    have hxf : (x.name == pd) = false := by
      rw [hxn]
      simpa using hnp
    rw [hxf]
    rfl
  rw [foldl_congr_of_mem hsteps]

theorem findAllChildrenCompressed_drop_leafref (pc : Bool) (e : SchemaNode)
    (ex : Bool) (pd dd : String) (hkind : e.kind = NodeKind.list)
    (hnd : (e.children.map SchemaNode.name).Nodup) :
    findAllChildrenCompressed pc e ex pd dd =
      findAllChildrenCompressed pc (dropLeafrefChildren e) ex pd dd := by
  have hpq : ∀ c ∈ e.children, c.name ≠ pd →
      keepName e c.name = (fun c => !decide (c.kind = NodeKind.leafref)) c := by
    intro c hc _
    unfold keepName lookupChild
    rw [find?_self_of_nodup hnd hc]
  have htails : (children (dropLeafrefChildren e)).filterMap
      (fun c => if c.name = pd then none else some c.name) =
      ((children e).filterMap
        (fun c => if c.name = pd then none else some c.name)).filter (keepName e) :=
    filterMap_filter_comm hpq
  have hnames : orderedChildNames (dropLeafrefChildren e) pd =
      (orderedChildNames e pd).filter (keepName e) := by
    unfold orderedChildNames
    rcases hlp : lookupChild e pd with _ | c
    · have hlp2 : lookupChild (dropLeafrefChildren e) pd = none := find?_filter_none hlp
      rw [if_neg (by rw [hlp2]; simp), if_neg (by simp),
        List.nil_append, List.nil_append]
      exact htails
    · by_cases hkq : (!decide (c.kind = NodeKind.leafref)) = true
      · have hlp2 : lookupChild (dropLeafrefChildren e) pd = some c :=
          find?_filter_some hlp hkq
        have hkeep : keepName e pd = true := by
          unfold keepName
          rw [hlp]
          exact hkq
        rw [if_pos (show ((dropLeafrefChildren e).kind = NodeKind.container ∨
              (dropLeafrefChildren e).kind = NodeKind.list) ∧
              (lookupChild (dropLeafrefChildren e) pd).isSome = true from
            ⟨Or.inr hkind, by rw [hlp2]; rfl⟩),
          if_pos (show (e.kind = NodeKind.container ∨ e.kind = NodeKind.list) ∧
              (some c).isSome = true from ⟨Or.inr hkind, rfl⟩)]
        rw [List.filter_append, List.filter_cons_of_pos hkeep, List.filter_nil]
        rw [htails]
      · have hlp2 : lookupChild (dropLeafrefChildren e) pd = none :=
          find?_filter_dropped hnd hlp (by simpa using hkq)
        have hkeep : keepName e pd = false := by
          unfold keepName
          rw [hlp]
          simpa using hkq
        rw [if_neg (by rw [hlp2]; simp),
          if_pos (show (e.kind = NodeKind.container ∨ e.kind = NodeKind.list) ∧
              (some c).isSome = true from ⟨Or.inr hkind, rfl⟩),
          List.nil_append,
          List.filter_append, List.filter_cons_of_neg (by rw [hkeep]; simp),
          List.filter_nil, List.nil_append]
        exact htails
  have hid : ∀ n ∈ orderedChildNames e pd, keepName e n = false → ∀ st,
      processChild pc e ex pd dd st n = st := by
    intro n _ hp st
    rcases hln : lookupChild e n with _ | c
    · exact processChild_none_id hln st
    · have hp2 : (!decide (c.kind = NodeKind.leafref)) = false := by
        unfold keepName at hp
        rw [hln] at hp
        exact hp
      have hcl : c.kind = NodeKind.leafref := by
        have hd2 : decide (c.kind = NodeKind.leafref) = true := by
          cases hdec : decide (c.kind = NodeKind.leafref)
          · rw [hdec] at hp2
            exact absurd hp2 (by decide)
          · rfl
        exact of_decide_eq_true hd2
      exact processChild_leafref_in_list_id hkind hln hcl st
  have hcongr : ∀ n ∈ (orderedChildNames e pd).filter (keepName e), ∀ st,
      processChild pc e ex pd dd st n =
        processChild pc (dropLeafrefChildren e) ex pd dd st n := by
    intro n hn st
    have hp : keepName e n = true := (List.mem_filter.mp hn).2
    have hlk : lookupChild (dropLeafrefChildren e) n = lookupChild e n := by
      rcases hln : lookupChild e n with _ | c
      · exact find?_filter_none hln
      · have hq : (!decide (c.kind = NodeKind.leafref)) = true := by
          have hp2 := hp
          unfold keepName at hp2
          rw [hln] at hp2
          exact hp2
        exact find?_filter_some hln hq
    exact (@processChild_congr pc ex pd dd e (dropLeafrefChildren e) n rfl rfl hlk st).symm
  rw [findAllChildrenCompressed_eq_fold pc e ex pd dd,
    findAllChildrenCompressed_eq_fold pc (dropLeafrefChildren e) ex pd dd, hnames]
  rw [foldl_filter_of_id hid, foldl_congr_of_mem hcongr]

/-- The prioritized data container name chosen by the compressed path. -/
def prioDataOf (cb : CompressBehaviour) : String :=
  match cb with
  | .PreferOperationalState => "state"
  | _ => "config"

/-- The deprioritized data container name chosen by the compressed path. -/
def deprioDataOf (cb : CompressBehaviour) : String :=
  match cb with
  | .PreferOperationalState => "config"
  | _ => "state"

theorem processChildBody_singleton_list (pc : Bool) (e : SchemaNode)
    (ex : Bool) (pd dd : String) (st : ResolveState) (c g : SchemaNode)
    (hk : c.kind = NodeKind.container) (hcs : isConfigState c = false)
    (hgc : children c = [g]) (hgl : g.kind = NodeKind.list)
    (hskip : (ex && !effConfig (effConfig pc e) c) = false) :
    processChildBody pc e ex pd dd st c =
      if (!effConfig (effConfig (effConfig pc e) c) g && ex) = true then st
      else
        { st with
          directChildren := (addNewChild st.directChildren g.name g st.errs).1,
          errs := (addNewChild st.directChildren g.name g st.errs).2 } := by
  unfold processChildBody
  have hdir : isDir c = true := by
    unfold isDir
    rw [hk]
  have hsl : singletonListChild c = some g := by
    unfold singletonListChild
    rw [hgc]
    show (if g.kind = NodeKind.list then some g else none) = some g
    rw [if_pos hgl]
  rw [hskip, hcs, hdir, hsl]
  rfl

/-! Concrete trees used for counterexamples and witnesses. -/

/-- A leaf named foo, a sibling of the surrounding container c4Wrap. -/
def c4Leaf : SchemaNode := ⟨"foo", .leaf, .unset, [], "/e/foo"⟩

/-- A list named foo wrapped in the surrounding container c4Wrap. -/
def c4List : SchemaNode := ⟨"foo", .list, .unset, [], "/e/bar/foo"⟩

/-- A surrounding container whose only child is the list c4List. -/
def c4Wrap : SchemaNode := ⟨"bar", .container, .unset, [c4List], "/e/bar"⟩

/-- A container holding a leaf foo and a singleton-list container bar whose
list is also named foo. -/
def c4Node : SchemaNode := ⟨"e", .container, .unset, [c4Leaf, c4Wrap], "/e"⟩

/-- A leafref key backreference under the list c3List. -/
def c3Key : SchemaNode := ⟨"k", .leafref, .unset, [], "/l/k"⟩

/-- A plain leaf under the list c3List2. -/
def c3Leaf : SchemaNode := ⟨"name", .leaf, .unset, [], "/l/name"⟩

/-- A list node whose only declared child is the leafref c3Key. -/
def c3List : SchemaNode := ⟨"l", .list, .unset, [c3Key], "/l"⟩

/-- A list node declaring a leafref key backreference and a plain leaf. -/
def c3List2 : SchemaNode := ⟨"l", .list, .unset, [c3Key, c3Leaf], "/l"⟩

/-- Leaf x under the read-only config container of c2Parent. -/
def c2xLeafC : SchemaNode := ⟨"x", .leaf, .unset, [], "/p/config/x"⟩

/-- Leaf x under the read-only state container of c2Parent. -/
def c2xLeafS : SchemaNode := ⟨"x", .leaf, .unset, [], "/p/state/x"⟩

/-- A config container marked config false declaring leaf x. -/
def c2ConfigRO : SchemaNode := ⟨"config", .container, .tFalse, [c2xLeafC], "/p/config"⟩

/-- A state container marked config false declaring leaf x. -/
def c2StateRO : SchemaNode := ⟨"state", .container, .tFalse, [c2xLeafS], "/p/state"⟩

/-- A parent whose config and state containers both declare leaf x but are
both read only. -/
def c2Parent : SchemaNode := ⟨"p", .container, .unset, [c2ConfigRO, c2StateRO], "/p"⟩

/-- A read-only container with a declared child, for the visibility
short-circuit. -/
def c5Node : SchemaNode :=
  ⟨"s", .container, .tFalse, [⟨"a", .leaf, .unset, [], "/s/a"⟩], "/s"⟩

/-- A choice node with a declared child named config and a leaf x. -/
def c10Choice : SchemaNode :=
  ⟨"ch", .choice, .unset,
   [⟨"config", .container, .unset, [], "/ch/config"⟩,
    ⟨"x", .leaf, .unset, [], "/ch/x"⟩], "/ch"⟩

theorem map_fst_pairs (f : String → SchemaNode) (ns : List String) :
    ((ns.map (fun n => (n, f n))).map Prod.fst) = ns := by
  rw [List.map_map]
  exact List.map_id'' (fun x => rfl) ns

/-! The claim theorems. -/

/-- C1: for the container interface with declared children config (holding
leaf admin-state) and state (holding leaves admin-state and oper-state and
container counters with leaf in-pkts), resolving children under
PreferIntendedConfig returns exactly the mapping admin-state (the config
copy), oper-state and counters, with an empty error list. -/
theorem c1_scenario_a :
    FindAllChildren true interfaceNode CompressBehaviour.PreferIntendedConfig =
      ([("admin-state", adminStateConfig), ("oper-state", operState),
        ("counters", countersNode)], []) := rfl

/-- C2 counterexample: a parent whose config and state containers both
declare a leaf named x, under the compressed policy ExcludeDerivedState,
resolves to a mapping with no entry named x at all (both containers are
read only), refuting that exactly one entry named x appears under every
compressed policy. -/
theorem c2_counterexample :
    FindAllChildren true c2Parent CompressBehaviour.ExcludeDerivedState = ([], []) ∧
    (((FindAllChildren true c2Parent CompressBehaviour.ExcludeDerivedState).1.map
        Prod.fst).count "x" = 0) := ⟨rfl, rfl⟩

/-- C2 (amended): for a parent whose declared children are exactly a config
container declaring leaves cs and a state container declaring leaves ss,
each with pairwise distinct names, and a name x declared under both, the
policies PreferIntendedConfig and PreferOperationalState resolve the parent
to a mapping with exactly one entry named x and an empty error list. -/
theorem c2_whitelist_symmetry (pc : Bool) (cb : CompressBehaviour)
    (cs ss : List String) (x : String)
    (hcb : cb = CompressBehaviour.PreferIntendedConfig ∨
           cb = CompressBehaviour.PreferOperationalState)
    (h1 : cs.Nodup) (h2 : ss.Nodup) (hxc : x ∈ cs) (hxs : x ∈ ss) :
    (((FindAllChildren pc (csParent cs ss) cb).1.map Prod.fst).count x = 1) ∧
    (FindAllChildren pc (csParent cs ss) cb).2 = [] := by
  rcases hcb with rfl | rfl
  · rw [csParent_resolve_pIC pc cs ss h1 h2]
    refine ⟨?_, rfl⟩
    rw [List.map_append, map_fst_pairs, map_fst_pairs, List.count_append]
    have hc1 : cs.count x = 1 := List.count_eq_one_of_mem h1 hxc
    have hc2 : (ss.filter (fun n => !cs.contains n)).count x = 0 := by
      rw [List.count_eq_zero]
      intro hmem
      have hflt := (List.mem_filter.mp hmem).2
      have hcx : cs.contains x = true := List.elem_iff.mpr hxc
      rw [hcx] at hflt
      exact absurd hflt (by decide)
    rw [hc1, hc2]
  · rw [csParent_resolve_pOS pc cs ss h1 h2]
    refine ⟨?_, rfl⟩
    rw [List.map_append, map_fst_pairs, map_fst_pairs, List.count_append]
    have hc1 : ss.count x = 1 := List.count_eq_one_of_mem h2 hxs
    have hc2 : (cs.filter (fun n => !ss.contains n)).count x = 0 := by
      rw [List.count_eq_zero]
      intro hmem
      have hflt := (List.mem_filter.mp hmem).2
      have hcx : ss.contains x = true := List.elem_iff.mpr hxs
      rw [hcx] at hflt
      exact absurd hflt (by decide)
    rw [hc1, hc2]

/-- C2 witness: the amended whitelist symmetry at a concrete input. -/
theorem c2_witness :
    ((CompressBehaviour.PreferIntendedConfig = CompressBehaviour.PreferIntendedConfig ∨
      CompressBehaviour.PreferIntendedConfig = CompressBehaviour.PreferOperationalState) ∧
     (["x"] : List String).Nodup ∧ (["x", "y"] : List String).Nodup ∧
     "x" ∈ (["x"] : List String) ∧ "x" ∈ (["x", "y"] : List String)) ∧
    ((((FindAllChildren true (csParent ["x"] ["x", "y"])
          CompressBehaviour.PreferIntendedConfig).1.map Prod.fst).count "x" = 1) ∧
     (FindAllChildren true (csParent ["x"] ["x", "y"])
        CompressBehaviour.PreferIntendedConfig).2 = []) :=
  ⟨⟨Or.inl rfl, by decide, by decide, by decide, by decide⟩,
   c2_whitelist_symmetry true CompressBehaviour.PreferIntendedConfig
     ["x"] ["x", "y"] "x" (Or.inl rfl) (by decide) (by decide) (by decide) (by decide)⟩

/-- C3 counterexample: under the Uncompressed policy a leafref child of a
list node is present in the resolved child set, refuting the claim for
uncompressed policies. -/
theorem c3_counterexample :
    FindAllChildren true c3List CompressBehaviour.Uncompressed =
      ([("k", c3Key)], []) := rfl

/-- C3 (amended): under every compressed policy, the leafref children of a
list node with distinct child names are never processed: resolving the list
gives the same mapping and errors as resolving the list with its leafref
children removed. -/
theorem c3_leafref_key_suppressed (pc : Bool) (e : SchemaNode)
    (cb : CompressBehaviour) (hcb : cb.CompressEnabled = true)
    (hkind : e.kind = NodeKind.list)
    (hnd : (e.children.map SchemaNode.name).Nodup) :
    FindAllChildren pc e cb = FindAllChildren pc (dropLeafrefChildren e) cb := by
  cases cb
  · exact absurd hcb (by decide)
  · exact absurd hcb (by decide)
  · rw [FindAllChildren_PreferIntendedConfig, FindAllChildren_PreferIntendedConfig]
    exact findAllChildrenCompressed_drop_leafref pc e false "config" "state" hkind hnd
  · rw [FindAllChildren_PreferOperationalState, FindAllChildren_PreferOperationalState]
    exact findAllChildrenCompressed_drop_leafref pc e false "state" "config" hkind hnd
  · rw [FindAllChildren_ExcludeDerivedState, FindAllChildren_ExcludeDerivedState]
    have hcfg : effConfig pc (dropLeafrefChildren e) = effConfig pc e :=
      effConfig_congr rfl
    rw [hcfg]
    by_cases hec : effConfig pc e = true
    · rw [if_neg (by rw [hec]; decide), if_neg (by rw [hec]; decide)]
      exact findAllChildrenCompressed_drop_leafref pc e true "config" "state" hkind hnd
    · have hec2 : effConfig pc e = false := by simpa using hec
      rw [if_pos (by rw [hec2]; decide), if_pos (by rw [hec2]; decide)]

/-- C3 witness: the amended leafref suppression at a concrete list. -/
theorem c3_witness :
    (CompressBehaviour.CompressEnabled CompressBehaviour.PreferIntendedConfig = true ∧
     c3List2.kind = NodeKind.list ∧
     (c3List2.children.map SchemaNode.name).Nodup) ∧
    FindAllChildren true c3List2 CompressBehaviour.PreferIntendedConfig =
      FindAllChildren true (dropLeafrefChildren c3List2)
        CompressBehaviour.PreferIntendedConfig :=
  ⟨⟨rfl, rfl, by decide⟩,
   c3_leafref_key_suppressed true c3List2 CompressBehaviour.PreferIntendedConfig
     rfl rfl (by decide)⟩

/-- C4 counterexample: a writable singleton-list wrapper under a compressed
policy that keeps state, whose list name is already taken by an earlier
sibling: the list does not appear in the resolved child set, only a
duplicate error is recorded, refuting that the list always appears under
its own name. -/
theorem c4_counterexample :
    FindAllChildren true c4Node CompressBehaviour.PreferIntendedConfig =
      ([("foo", c4Leaf)], ["/e/bar/foo was duplicate"]) := rfl

/-- C4 (amended): under every compressed policy, when the compressed loop
processes a child container c that is not a config/state pair and whose
declared children are exactly one list g, and c is not skipped by the
state-exclusion check, then c itself is never added: the step returns the
state unchanged when the policy excludes state and g is effectively read
only, and otherwise offers g under its own name to the duplicate guard in
strict mode (first writer wins, a duplicate records an error). -/
theorem c4_singleton_list_unwrapped (pc : Bool) (e : SchemaNode)
    (cb : CompressBehaviour) (_hcb : cb.CompressEnabled = true)
    (st : ResolveState) (c g : SchemaNode)
    (hk : c.kind = NodeKind.container) (hcs : isConfigState c = false)
    (hgc : children c = [g]) (hgl : g.kind = NodeKind.list)
    (hskip : (cb.StateExcluded && !effConfig (effConfig pc e) c) = false) :
    processChildBody pc e cb.StateExcluded (prioDataOf cb) (deprioDataOf cb) st c =
      if (!effConfig (effConfig (effConfig pc e) c) g && cb.StateExcluded) = true then st
      else
        { st with
          directChildren := (addNewChild st.directChildren g.name g st.errs).1,
          errs := (addNewChild st.directChildren g.name g st.errs).2 } :=
  processChildBody_singleton_list pc e cb.StateExcluded (prioDataOf cb)
    (deprioDataOf cb) st c g hk hcs hgc hgl hskip

/-- C4 witness: the amended singleton-list treatment at a concrete input. -/
theorem c4_witness :
    (CompressBehaviour.CompressEnabled CompressBehaviour.PreferIntendedConfig = true ∧
     c4Wrap.kind = NodeKind.container ∧ isConfigState c4Wrap = false ∧
     children c4Wrap = [c4List] ∧ c4List.kind = NodeKind.list ∧
     ((CompressBehaviour.PreferIntendedConfig.StateExcluded &&
       !effConfig (effConfig true c4Node) c4Wrap) = false)) ∧
    processChildBody true c4Node CompressBehaviour.PreferIntendedConfig.StateExcluded
        (prioDataOf CompressBehaviour.PreferIntendedConfig)
        (deprioDataOf CompressBehaviour.PreferIntendedConfig) ⟨[], [], []⟩ c4Wrap =
      if (!effConfig (effConfig (effConfig true c4Node) c4Wrap) c4List &&
          CompressBehaviour.PreferIntendedConfig.StateExcluded) = true then ⟨[], [], []⟩
      else
        { prioNames := ([] : List String),
          directChildren := (addNewChild [] c4List.name c4List []).1,
          errs := (addNewChild [] c4List.name c4List []).2 } :=
  ⟨⟨rfl, rfl, rfl, rfl, rfl, rfl⟩,
   c4_singleton_list_unwrapped true c4Node CompressBehaviour.PreferIntendedConfig
     rfl ⟨[], [], []⟩ c4Wrap c4List rfl rfl rfl rfl rfl⟩

/-- C5: whenever the policy excludes derived state and the queried node is
effectively read only (inherited visibility included), FindAllChildren
returns an empty mapping and an empty error list regardless of the declared
children. -/
theorem c5_readonly_short_circuit (pc : Bool) (e : SchemaNode)
    (cb : CompressBehaviour) (hex : cb.StateExcluded = true)
    (hro : effConfig pc e = false) :
    FindAllChildren pc e cb = ([], []) := by
  cases cb
  · exact absurd hex (by decide)
  · rw [FindAllChildren_UncompressedExcl, if_pos (by rw [hro]; decide)]
  · exact absurd hex (by decide)
  · exact absurd hex (by decide)
  · rw [FindAllChildren_ExcludeDerivedState, if_pos (by rw [hro]; decide)]

/-- C5 witness: the short-circuit at a concrete read-only node. -/
theorem c5_witness :
    (CompressBehaviour.StateExcluded CompressBehaviour.ExcludeDerivedState = true ∧
     effConfig true c5Node = false) ∧
    FindAllChildren true c5Node CompressBehaviour.ExcludeDerivedState = ([], []) :=
  ⟨⟨rfl, rfl⟩,
   c5_readonly_short_circuit true c5Node CompressBehaviour.ExcludeDerivedState rfl rfl⟩

/-- C6: the resolved child mapping of FindAllChildren never contains a
choice or case node, and the flattener FindFirstNonChoiceOrCase never
yields a choice or case node. -/
theorem c6_no_wrapper_nodes :
    (∀ (pc : Bool) (e : SchemaNode) (cb : CompressBehaviour)
       (n : String) (v : SchemaNode),
       (n, v) ∈ (FindAllChildren pc e cb).1 → isChoiceOrCase v = false) ∧
    (∀ (w x : SchemaNode), x ∈ FindFirstNonChoiceOrCase w →
       isChoiceOrCase x = false) := by
  constructor
  · intro pc e cb n v hmem
    exact wrapperFreeMap_FindAllChildren (n, v) hmem
  · intro w x hx
    exact mem_FindFirstNonChoiceOrCase_not_wrapper hx

/-- C6 witness: a concrete member of a resolved child set is not a wrapper. -/
theorem c6_witness :
    (("oper-state", operState) ∈
      (FindAllChildren true interfaceNode CompressBehaviour.PreferIntendedConfig).1) ∧
    isChoiceOrCase operState = false := by
  have hmem : ("oper-state", operState) ∈
      (FindAllChildren true interfaceNode CompressBehaviour.PreferIntendedConfig).1 := by
    have he : (FindAllChildren true interfaceNode
        CompressBehaviour.PreferIntendedConfig).1 =
        [("admin-state", adminStateConfig), ("oper-state", operState),
         ("counters", countersNode)] := rfl
    rw [he]
    exact List.Mem.tail _ (List.Mem.head _)
  exact ⟨hmem, c6_no_wrapper_nodes.1 true interfaceNode
    CompressBehaviour.PreferIntendedConfig "oper-state" operState hmem⟩

/-- C7: the duplicate guard never overwrites an existing entry: on a
duplicate key the mapping is unchanged and exactly one error naming the
path of the offending node is appended; on a fresh key the entry is
appended with no error; and every step of the resolution loop only appends
to the error list, so errors accumulate across the whole call. -/
theorem c7_duplicate_guard :
    (∀ (m : List (String × SchemaNode)) (k : String) (v : SchemaNode)
       (errs : List String), k ∈ m.map Prod.fst →
       addNewChild m k v errs = (m, errs ++ [v.path ++ " was duplicate"])) ∧
    (∀ (m : List (String × SchemaNode)) (k : String) (v : SchemaNode)
       (errs : List String), k ∉ m.map Prod.fst →
       addNewChild m k v errs = (m ++ [(k, v)], errs)) ∧
    (∀ (pc excludeState : Bool) (prioData deprioData : String) (e : SchemaNode)
       (st : ResolveState) (n : String),
       ∃ t, (processChild pc e excludeState prioData deprioData st n).errs =
         st.errs ++ t) := by
  refine ⟨?_, ?_, ?_⟩
  · intro m k v errs h
    exact addNewChild_of_mem v errs h
  · intro m k v errs h
    exact addNewChild_of_not_mem v errs h
  · intro pc ex pd dd e st n
    exact processChild_errs_suffix pc e ex pd dd st n

/-- C7 witness: the duplicate guard at concrete inputs. -/
theorem c7_witness :
    ("foo" ∈ ([("foo", c4Leaf)] : List (String × SchemaNode)).map Prod.fst) ∧
    addNewChild [("foo", c4Leaf)] "foo" c4List [] =
      ([("foo", c4Leaf)], ["/e/bar/foo was duplicate"]) ∧
    ("bar" ∉ ([("foo", c4Leaf)] : List (String × SchemaNode)).map Prod.fst) ∧
    addNewChild [("foo", c4Leaf)] "bar" c4Wrap [] =
      ([("foo", c4Leaf), ("bar", c4Wrap)], []) := by
  have hmem : "foo" ∈ ([("foo", c4Leaf)] : List (String × SchemaNode)).map Prod.fst :=
    List.Mem.head _
  have hnmem : "bar" ∉ ([("foo", c4Leaf)] : List (String × SchemaNode)).map Prod.fst := by
    decide
  exact ⟨hmem, c7_duplicate_guard.1 [("foo", c4Leaf)] "foo" c4List [] hmem,
    hnmem, c7_duplicate_guard.2.1 [("foo", c4Leaf)] "bar" c4Wrap [] hnmem⟩

/-- C8: for a fixed node and policy, any two results of FindAllChildren are
identical, mapping and error list alike (the embedding fixes the child
iteration order to declaration order as the spec requires). -/
theorem c8_deterministic (pc : Bool) (e : SchemaNode) (cb : CompressBehaviour)
    (r1 r2 : List (String × SchemaNode) × List String)
    (h1 : FindAllChildren pc e cb = r1) (h2 : FindAllChildren pc e cb = r2) :
    r1.1 = r2.1 ∧ r1.2 = r2.2 := by
  subst h1
  subst h2
  exact ⟨rfl, rfl⟩

/-- C8 witness: two evaluations of the same call agree. -/
theorem c8_witness :
    (FindAllChildren true interfaceNode CompressBehaviour.PreferIntendedConfig =
      ([("admin-state", adminStateConfig), ("oper-state", operState),
        ("counters", countersNode)], [])) ∧
    ((([("admin-state", adminStateConfig), ("oper-state", operState),
        ("counters", countersNode)], []) :
        List (String × SchemaNode) × List String).1 =
      (([("admin-state", adminStateConfig), ("oper-state", operState),
        ("counters", countersNode)], []) :
        List (String × SchemaNode) × List String).1 ∧
     (([("admin-state", adminStateConfig), ("oper-state", operState),
        ("counters", countersNode)], []) :
        List (String × SchemaNode) × List String).2 =
      (([("admin-state", adminStateConfig), ("oper-state", operState),
        ("counters", countersNode)], []) :
        List (String × SchemaNode) × List String).2) :=
  ⟨rfl, c8_deterministic true interfaceNode CompressBehaviour.PreferIntendedConfig
    _ _ rfl rfl⟩

/-- C9: TranslateToCompressBehaviour is the exact mapping of the two legacy
flags, CompressEnabled is false exactly for the two uncompressed values and
StateExcluded is true exactly for UncompressedExcludeDerivedState and
ExcludeDerivedState. -/
theorem c9_policy_model :
    TranslateToCompressBehaviour true true = CompressBehaviour.ExcludeDerivedState ∧
    TranslateToCompressBehaviour true false = CompressBehaviour.PreferIntendedConfig ∧
    TranslateToCompressBehaviour false true =
      CompressBehaviour.UncompressedExcludeDerivedState ∧
    TranslateToCompressBehaviour false false = CompressBehaviour.Uncompressed ∧
    (∀ p : CompressBehaviour, p.CompressEnabled = false ↔
      (p = CompressBehaviour.Uncompressed ∨
       p = CompressBehaviour.UncompressedExcludeDerivedState)) ∧
    (∀ p : CompressBehaviour, p.StateExcluded = true ↔
      (p = CompressBehaviour.UncompressedExcludeDerivedState ∨
       p = CompressBehaviour.ExcludeDerivedState)) := by
  refine ⟨rfl, rfl, rfl, rfl, ?_, ?_⟩
  · intro p
    cases p <;> decide
  · intro p
    cases p <;> decide

/-- C10: under every compressed policy, when the queried node is neither a
container nor a list, a declared child named like the priority container is
dropped entirely: the result is the same as if that child were absent, so
it contributes nothing and produces no error. -/
theorem c10_prio_child_dropped (pc : Bool) (e : SchemaNode)
    (cb : CompressBehaviour) (hcb : cb.CompressEnabled = true)
    (hkc : e.kind ≠ NodeKind.container) (hkl : e.kind ≠ NodeKind.list) :
    FindAllChildren pc (dropPrioChildren e (prioDataOf cb)) cb =
      FindAllChildren pc e cb := by
  cases cb
  · exact absurd hcb (by decide)
  · exact absurd hcb (by decide)
  · rw [FindAllChildren_PreferIntendedConfig, FindAllChildren_PreferIntendedConfig]
    exact findAllChildrenCompressed_drop_prio pc e false "config" "state" hkc hkl
  · rw [FindAllChildren_PreferOperationalState, FindAllChildren_PreferOperationalState]
    exact findAllChildrenCompressed_drop_prio pc e false "state" "config" hkc hkl
  · rw [FindAllChildren_ExcludeDerivedState, FindAllChildren_ExcludeDerivedState]
    have hcfg : effConfig pc (dropPrioChildren e (prioDataOf
        CompressBehaviour.ExcludeDerivedState)) = effConfig pc e :=
      effConfig_congr rfl
    rw [hcfg]
    by_cases hec : effConfig pc e = true
    · rw [if_neg (by rw [hec]; decide), if_neg (by rw [hec]; decide)]
      exact findAllChildrenCompressed_drop_prio pc e true "config" "state" hkc hkl
    · have hec2 : effConfig pc e = false := by simpa using hec
      rw [if_pos (by rw [hec2]; decide), if_pos (by rw [hec2]; decide)]

/-- C10 witness: the priority-name child of a choice node is dropped. -/
theorem c10_witness :
    (CompressBehaviour.CompressEnabled CompressBehaviour.PreferIntendedConfig = true ∧
     c10Choice.kind ≠ NodeKind.container ∧ c10Choice.kind ≠ NodeKind.list) ∧
    FindAllChildren true (dropPrioChildren c10Choice
        (prioDataOf CompressBehaviour.PreferIntendedConfig))
      CompressBehaviour.PreferIntendedConfig =
      FindAllChildren true c10Choice CompressBehaviour.PreferIntendedConfig :=
  ⟨⟨rfl, by decide, by decide⟩,
   c10_prio_child_dropped true c10Choice CompressBehaviour.PreferIntendedConfig
     rfl (by decide) (by decide)⟩

end Genutil
